import Mathlib

/-!
Verification development for the `catalog_crawler` subsystem
(`catalog_crawler/crawler.py`, `catalog_crawler/cli.py`,
`catalog_crawler/parsers/listing_parser.py`,
`catalog_crawler/parsers/product_parser.py`).

The Python sources are shallowly embedded: the repository's own control
flow (loops, conditionals, string surgery, retry policy, frontier
management) is translated statement by statement, while external
libraries (BeautifulSoup, httpx, tenacity's clock, pydantic, the file
system) appear as explicit oracles or value-level models.  HTML documents
are represented as element trees whose query results are given by an
oracle table keyed by the exact selector strings the source code uses.
-/

/-! ## String helpers modelling `urllib.parse` and Python string methods

URLs are processed as character lists.  `stripQFChars` models
`s.split("?")[0].split("#")[0]`: the prefix of the string before the
first `?` or `#`. -/

def stripQFChars : List Char → List Char
  | [] => []
  | c :: cs => if c = '?' then [] else if c = '#' then [] else c :: stripQFChars cs

/-- Model of `full_url.split("?")[0].split("#")[0]` from
`listing_parser.py`: everything before the first query or fragment
delimiter. -/
def stripQueryFragment (s : String) : String :=
  String.mk (stripQFChars s.data)

/-- Characters allowed in a URL scheme after the leading letter
(`urllib.parse.scheme_chars`). -/
def isSchemeChar (c : Char) : Bool :=
  c.isAlphanum || c = '+' || c = '-' || c = '.'

/-- Helper for scheme detection: given the characters after the leading
letter, return the remainder after a `scheme:` marker if every character
up to the first colon is a scheme character. -/
def schemeRest : List Char → Option (List Char)
  | [] => none
  | c :: cs => if c = ':' then some cs else if isSchemeChar c then schemeRest cs else none

/-- Drop a leading `scheme:` from a URL if a syntactically valid scheme
is present (first character a letter, remaining scheme characters
alphanumeric or `+`/`-`/`.`), as `urllib.parse.urlsplit` does. -/
def dropScheme (l : List Char) : List Char :=
  match l with
  | [] => []
  | c :: cs =>
      if c.isAlpha then
        match schemeRest cs with
        | some r => r
        | none => c :: cs
      else c :: cs

/-- Character can appear in a netloc: everything up to the first `/`,
`?` or `#`. -/
def isNetlocChar (c : Char) : Bool :=
  !(c = '/' || c = '?' || c = '#')

/-- Netloc of a URL as a character list: after removing the scheme, a
netloc is present only when the remainder starts with `//`, and extends
to the first `/`, `?` or `#` (as in `urllib.parse.urlsplit`). -/
def netlocChars (l : List Char) : List Char :=
  match dropScheme l with
  | '/' :: '/' :: rest => rest.takeWhile isNetlocChar
  | _ => []

/-- Model of `urllib.parse.urlparse(s).netloc`. -/
def pyNetloc (s : String) : String :=
  String.mk (netlocChars s.data)

/-- Path component of a URL: after removing scheme and netloc, the
characters before the first `?` or `#` (model of
`urllib.parse.urlparse(s).path`). -/
def pathChars (l : List Char) : List Char :=
  match dropScheme l with
  | '/' :: '/' :: rest => stripQFChars (rest.dropWhile isNetlocChar)
  | other => stripQFChars other

/-- Model of `urllib.parse.urlparse(s).path`. -/
def pyPath (s : String) : String :=
  String.mk (pathChars s.data)

/-- Query component: characters after the first `?` and before the first
`#` that follows it (model of `urllib.parse.urlparse(s).query`). -/
def queryChars : List Char → List Char
  | [] => []
  | c :: cs =>
      if c = '#' then []
      else if c = '?' then stripFragChars cs
      else queryChars cs
where
  stripFragChars : List Char → List Char
  | [] => []
  | c :: cs => if c = '#' then [] else c :: stripFragChars cs

/-- Fragment component: characters after the first `#`. -/
def fragChars : List Char → List Char
  | [] => []
  | c :: cs => if c = '#' then cs else fragChars cs

/-- Scheme of a URL, when syntactically valid (letters then scheme
characters before the first colon). -/
def schemeChars (l : List Char) : Option (List Char) :=
  match l with
  | [] => none
  | c :: cs =>
      if c.isAlpha then
        match schemeTake cs with
        | some pre => some (c :: pre)
        | none => none
      else none
where
  schemeTake : List Char → Option (List Char)
  | [] => none
  | c :: cs =>
      if c = ':' then some []
      else if isSchemeChar c then
        match schemeTake cs with
        | some pre => some (c :: pre)
        | none => none
      else none

/-- Python `s.strip()`: whitespace removed from both ends (character
list implementation, so the kernel can evaluate it). -/
def trimChars (l : List Char) : List Char :=
  ((l.dropWhile Char.isWhitespace).reverse.dropWhile Char.isWhitespace).reverse

def pyStrip (s : String) : String :=
  String.mk (trimChars s.data)

/-- Python `s.rstrip(c)` for a single character. -/
def pyRstripChar (s : String) (c : Char) : String :=
  String.mk ((s.data.reverse.dropWhile (fun x => x = c)).reverse)

/-- Python `s.rstrip("/")`. -/
def pyRstripSlash (s : String) : String :=
  pyRstripChar s '/'

/-- Python `int(s)`: optional surrounding whitespace, optional sign, at
least one decimal digit.  Returns `none` where Python raises
`ValueError`.  (Python additionally accepts underscore digit grouping,
which never occurs in the attribute values this crawler parses.) -/
def pyInt (s : String) : Option Int :=
  match (pyStrip s).data with
  | [] => none
  | c :: cs =>
      if c = '-' then (digitsToNat cs).map (fun n => -(n : Int))
      else if c = '+' then (digitsToNat cs).map (fun n => (n : Int))
      else (digitsToNat (c :: cs)).map (fun n => (n : Int))
where
  digitsToNat (l : List Char) : Option Nat :=
    match l with
    | [] => none
    | _ => digitsAux l 0
  digitsAux : List Char → Nat → Option Nat
  | [], acc => some acc
  | c :: cs, acc => if c.isDigit then digitsAux cs (acc * 10 + (c.toNat - 48)) else none

/-- Python string truthiness for `Optional[str]`: `None` and the empty
string are falsy. -/
def truthyOpt (o : Option String) : Bool :=
  match o with
  | none => false
  | some s => s ≠ ""

/-- Python `a or b` on optional strings: keep `a` when truthy, else `b`. -/
def pyOrStr (a b : Option String) : Option String :=
  if truthyOpt a then a else b

/-- Python `pat in s` substring containment, via an explicit character
scan. -/
def listStarts : List Char → List Char → Bool
  | [], _ => true
  | _ :: _, [] => false
  | p :: ps, c :: cs => p = c && listStarts ps cs

def listHasSub : List Char → List Char → Bool
  | pat, [] => pat.isEmpty
  | pat, c :: cs => listStarts pat (c :: cs) || listHasSub pat cs

/-- Python `pat in s` for strings. -/
def strContainsSub (s pat : String) : Bool :=
  listHasSub pat.data s.data

/-- Split of a character list on a single separator character, Python
`s.split(sep)` semantics (at least one piece, empty pieces kept). -/
def splitCharsOn (sep : Char) : List Char → List (List Char)
  | [] => [[]]
  | c :: cs =>
      let rest := splitCharsOn sep cs
      if c = sep then [] :: rest
      else
        match rest with
        | [] => [[c]]
        | piece :: more => (c :: piece) :: more

/-- Python `s.split(sep)` for a one-character separator. -/
def pySplitOn (s : String) (sep : Char) : List String :=
  (splitCharsOn sep s.data).map String.mk

/-- Split on a character predicate (empty pieces kept). -/
def splitCharsWhen (p : Char → Bool) : List Char → List (List Char)
  | [] => [[]]
  | c :: cs =>
      let rest := splitCharsWhen p cs
      if p c then [] :: rest
      else
        match rest with
        | [] => [[c]]
        | piece :: more => (c :: piece) :: more

/-- Python `s.split()` with no argument: split on whitespace runs,
dropping empty pieces. -/
def pySplitWs (s : String) : List String :=
  ((splitCharsWhen Char.isWhitespace s.data).map String.mk).filter (fun p => p ≠ "")

/-- Python `s.split(":", 1)[1]`: the remainder after the first colon
(callers guard on `":" in s`). -/
def afterFirstColon : List Char → List Char
  | [] => []
  | c :: cs => if c = ':' then cs else afterFirstColon cs

def pyAfterColon (s : String) : String :=
  String.mk (afterFirstColon s.data)

/-! ## Model of `urllib.parse.urljoin`

Restricted to the URL shapes the crawler meets: http(s) URLs without
dot-segments (`.`/`..` path segments are merged but not normalized;
nothing proved below depends on that corner).  Follows CPython's
branch structure: an absolute reference wins, a netloc-bearing
reference keeps its own authority, otherwise path/query are merged
with the base. -/

structure UrlParts where
  scheme : List Char
  hasNetloc : Bool
  netloc : List Char
  path : List Char
  query : List Char
  frag : List Char

def urlsplitChars (l : List Char) : UrlParts :=
  let scheme := (schemeChars l).getD []
  let rest := dropScheme l
  match rest with
  | '/' :: '/' :: r =>
      { scheme := scheme, hasNetloc := true, netloc := r.takeWhile isNetlocChar,
        path := stripQFChars (r.dropWhile isNetlocChar),
        query := queryChars l, frag := fragChars l }
  | other =>
      { scheme := scheme, hasNetloc := false, netloc := [],
        path := stripQFChars other,
        query := queryChars l, frag := fragChars l }

def urlunsplitChars (p : UrlParts) : List Char :=
  (if p.scheme.isEmpty then [] else p.scheme ++ [':']) ++
  (if p.hasNetloc then '/' :: '/' :: p.netloc else []) ++
  p.path ++
  (if p.query.isEmpty then [] else '?' :: p.query) ++
  (if p.frag.isEmpty then [] else '#' :: p.frag)

/-- Directory of a path: everything up to and including the last `/`
(CPython drops the last path segment of the base before merging a
relative reference). -/
def dirOfPath (l : List Char) : List Char :=
  (l.reverse.dropWhile (fun c => c ≠ '/')).reverse

/-- Model of `urllib.parse.urljoin(base, rel)` for http(s)-style URLs. -/
def pyUrljoin (base rel : String) : String :=
  if base = "" then rel
  else if rel = "" then
    let b := urlsplitChars base.data
    String.mk (urlunsplitChars { b with frag := [] })
  else
    let b := urlsplitChars base.data
    let r := urlsplitChars rel.data
    let scheme := if r.scheme.isEmpty then b.scheme else r.scheme
    if decide (scheme ≠ b.scheme) then rel
    else if r.hasNetloc then
      String.mk (urlunsplitChars { r with scheme := scheme })
    else if r.path.isEmpty then
      let q := if r.query.isEmpty then b.query else r.query
      String.mk (urlunsplitChars
        { scheme := scheme, hasNetloc := b.hasNetloc, netloc := b.netloc,
          path := b.path, query := q, frag := r.frag })
    else
      let path :=
        match r.path with
        | '/' :: _ => r.path
        | _ => dirOfPath b.path ++ r.path
      String.mk (urlunsplitChars
        { scheme := scheme, hasNetloc := b.hasNetloc, netloc := b.netloc,
          path := path, query := r.query, frag := r.frag })

/-! ## HTML document model

An `Elem` is one parsed HTML element.  BeautifulSoup's query machinery
is an oracle: `q` maps each selector string (or `find_all` tag-name
label, written exactly as the source calls it, with inner quotes
dropped from attribute selectors) to the elements it matches, in
document order.  `textStripped` is the oracle for
`get_text(strip=True)` and `textSepNL` for
`get_text(separator="\n", strip=True)` after `script`/`style`
decomposition.  `classes` models `get("class", [])` and `rel` models
`get("rel")` (multi-valued attributes). -/

inductive Elem : Type where
  | mk : String → List (String × String) → List String → Option (List String) →
      String → String → List (String × List Elem) → Elem

def Elem.tagName : Elem → String
  | .mk t _ _ _ _ _ _ => t

def Elem.attrs : Elem → List (String × String)
  | .mk _ a _ _ _ _ _ => a

def Elem.classes : Elem → List String
  | .mk _ _ c _ _ _ _ => c

def Elem.rel : Elem → Option (List String)
  | .mk _ _ _ r _ _ _ => r

def Elem.textStripped : Elem → String
  | .mk _ _ _ _ t _ _ => t

def Elem.textSepNL : Elem → String
  | .mk _ _ _ _ _ t _ => t

def Elem.q : Elem → List (String × List Elem)
  | .mk _ _ _ _ _ _ q => q

/-- Model of `tag.get(attr)`: first matching attribute, `None` when
absent. -/
def Elem.get (e : Elem) (a : String) : Option String :=
  (e.attrs.find? (fun p => p.1 = a)).map (fun p => p.2)

/-- Model of `soup.select(sel)` / `elem.find_all(label)` through the
query oracle. -/
def qLookup (e : Elem) (s : String) : List Elem :=
  ((e.q.find? (fun p => p.1 = s)).map (fun p => p.2)).getD []

/-- Model of `soup.select_one(sel)` / `soup.find(label)`: first match. -/
def selOne (e : Elem) (s : String) : Option Elem :=
  (qLookup e s).head?

/-! ## Listing parser (`parsers/listing_parser.py`) -/

structure ListingParseResult where
  productUrls : List String
  categoryUrls : List String
  paginationUrls : List String
  nextPageUrl : Option String

/-- Python `set` modelled as an insertion-ordered duplicate-free list;
every claim below depends only on membership, never on iteration
order. -/
def insertUnique (l : List String) (x : String) : List String :=
  if x ∈ l then l else l ++ [x]

/-- Selector fallback chain of `ListingParser._extract_product_urls`. -/
def productLinkSelectors : List String :=
  ["a.woocommerce-LoopProduct-link",
   ".product a.woocommerce-loop-product__link",
   ".products .product a[href*=/product/]",
   ".product-item a[href*=/product/]",
   "li.product a[href]",
   ".wc-block-grid__product a[href]",
   "a[href*=/product/]"]

/-- Body of the product-link loop: `if href and "/product/" in href`,
resolve against `current_url`, keep same-host URLs only, and insert the
query/fragment-stripped form. -/
def productLinkStep (currentUrl baseUrl : String) (acc : List String) (link : Elem) : List String :=
  match link.get "href" with
  | none => acc
  | some href =>
      if href ≠ "" && strContainsSub href "/product/" then
        let fullUrl := pyUrljoin currentUrl href
        if pyNetloc fullUrl = pyNetloc baseUrl then
          insertUnique acc (stripQueryFragment fullUrl)
        else acc
      else acc

def extractProductUrls (doc : Elem) (currentUrl baseUrl : String) : List String :=
  productLinkSelectors.foldl
    (fun acc sel => (qLookup doc sel).foldl (productLinkStep currentUrl baseUrl) acc) []

/-- Selector fallback chain of `ListingParser._extract_category_urls`. -/
def categoryLinkSelectors : List String :=
  [".product-categories a",
   ".widget_product_categories a",
   "a[href*=/product-category/]",
   ".wc-block-product-categories a",
   "nav.woocommerce-breadcrumb a",
   ".cat-item a"]

def categoryLinkStep (currentUrl baseUrl : String) (acc : List String) (link : Elem) : List String :=
  match link.get "href" with
  | none => acc
  | some href =>
      if href ≠ "" && strContainsSub href "/product-category/" then
        let fullUrl := pyUrljoin currentUrl href
        if pyNetloc fullUrl = pyNetloc baseUrl then
          insertUnique acc (stripQueryFragment fullUrl)
        else acc
      else acc

def extractCategoryUrls (doc : Elem) (currentUrl baseUrl : String) : List String :=
  categoryLinkSelectors.foldl
    (fun acc sel => (qLookup doc sel).foldl (categoryLinkStep currentUrl baseUrl) acc) []

/-- Selector fallback chain of `ListingParser._extract_pagination`. -/
def paginationSelectors : List String :=
  [".woocommerce-pagination a",
   ".page-numbers a",
   "nav.pagination a",
   ".pagination a"]

/-- Body of the pagination loop.  Note, from the source: the resolved
URL is inserted *without* query/fragment stripping, and the
`next`-link check sits outside the same-host filter. -/
def paginationStep (currentUrl baseUrl : String)
    (acc : List String × Option String) (link : Elem) : List String × Option String :=
  match link.get "href" with
  | none => acc
  | some href =>
      if href ≠ "" then
        let fullUrl := pyUrljoin currentUrl href
        let urls := if pyNetloc fullUrl = pyNetloc baseUrl then insertUnique acc.1 fullUrl else acc.1
        let nextPage :=
          if "next" ∈ link.classes || link.rel = some ["next"] then some fullUrl else acc.2
        (urls, nextPage)
      else acc

def extractPagination (doc : Elem) (currentUrl baseUrl : String) :
    List String × Option String :=
  let folded := paginationSelectors.foldl
    (fun acc sel => (qLookup doc sel).foldl (paginationStep currentUrl baseUrl) acc) ([], none)
  match selOne doc "a[rel=next]" with
  | none => folded
  | some link =>
      match link.get "href" with
      | none => folded
      | some href =>
          if href ≠ "" then (folded.1, some (pyUrljoin currentUrl href)) else folded

/-- Model of `ListingParser.parse`. -/
def listingParse (doc : Elem) (currentUrl baseUrl : String) : ListingParseResult :=
  let products := extractProductUrls doc currentUrl baseUrl
  let categories := extractCategoryUrls doc currentUrl baseUrl
  let pagination := extractPagination doc currentUrl baseUrl
  { productUrls := products, categoryUrls := categories,
    paginationUrls := pagination.1, nextPageUrl := pagination.2 }

/-- Indicator selectors of `ListingParser.is_product_page`. -/
def productPageIndicators : List String :=
  [".single-product", ".product_title", ".woocommerce-product-gallery",
   "form.cart", ".single_add_to_cart_button"]

/-- Model of `ListingParser.is_product_page`: `any` over the indicator
`select_one` results. -/
def isProductPage (doc : Elem) : Bool :=
  productPageIndicators.any (fun sel => (selOne doc sel).isSome)

/-! ## Product data model (`models/product.py`) -/

inductive SrcsetEntry : Type where
  | widthEntry : String → Int → SrcsetEntry
  | descEntry : String → String → SrcsetEntry
deriving DecidableEq, Repr

structure ProductImage where
  url : String
  alt : Option String := none
  width : Option Int := none
  height : Option Int := none
  srcset : List SrcsetEntry := []
deriving DecidableEq, Repr

structure CategoryRec where
  name : String
  url : Option String := none
  slug : Option String := none
deriving DecidableEq, Repr

/-- `Product` record; `timestamp_collected` (wall-clock) is outside the
model. -/
structure Product where
  productUrl : String
  slug : String
  name : String
  priceText : Option String := none
  currencySymbol : Option String := none
  regularPrice : Option String := none
  salePrice : Option String := none
  stockText : Option String := none
  inStock : Bool := true
  shortDescription : Option String := none
  longDescription : Option String := none
  additionalInformation : List (String × String) := []
  categories : List CategoryRec := []
  tags : List String := []
  mainImage : Option ProductImage := none
  galleryImages : List ProductImage := []
  ingredients : Option String := none
  allergens : List String := []
  nutritionInfo : List (String × String) := []
  nutritionPdfUrl : Option String := none
  sku : Option String := none
deriving DecidableEq, Repr

/-! ## Product parser (`parsers/product_parser.py`) -/

/-- Model of `ProductParser._extract_slug`: last non-empty path segment
of the product URL. -/
def extractSlug (url : String) : String :=
  (((pySplitOn (pyPath url) '/').filter (fun s => s ≠ "")).getLast?).getD ""

def nameSelectors : List String :=
  [".product_title", "h1.entry-title", ".single-product h1",
   "h1[itemprop=name]", ".product-title h1"]

/-- Model of `ProductParser._extract_name`: first selector hit, falling
back to the first `h1`, then the constant. -/
def extractName (doc : Elem) : String :=
  match nameSelectors.findSome? (fun sel => selOne doc sel) with
  | some e => e.textStripped
  | none =>
      match selOne doc "h1" with
      | some h => h.textStripped
      | none => "Unknown Product"

structure PriceInfo where
  priceText : Option String := none
  currency : Option String := none
  regularPrice : Option String := none
  salePrice : Option String := none

/-- Model of `ProductParser._extract_price`. -/
def extractPrice (doc : Elem) : PriceInfo :=
  let container :=
    match selOne doc ".price" with
    | some c => some c
    | none => selOne doc "[itemprop=price]"
  let base : PriceInfo :=
    match container with
    | none => {}
    | some c =>
        let currency := (selOne c ".woocommerce-Price-currencySymbol").map Elem.textStripped
        let delPrice := selOne c "del .amount"
        let insPrice := selOne c "ins .amount"
        let prices :=
          match delPrice, insPrice with
          | some d, some i => (some d.textStripped, some i.textStripped)
          | _, _ =>
              match selOne c ".amount" with
              | some a => (some a.textStripped, none)
              | none => (none, none)
        { priceText := some c.textStripped, currency := currency,
          regularPrice := prices.1, salePrice := prices.2 }
  if truthyOpt base.regularPrice then base
  else
    match selOne doc "meta[itemprop=price]" with
    | some m => { base with regularPrice := m.get "content" }
    | none => base

structure StockInfo where
  text : Option String := none
  inStock : Bool := true

/-- Model of `ProductParser._extract_stock`. -/
def extractStock (doc : Elem) : StockInfo :=
  let base : StockInfo :=
    match selOne doc ".stock" with
    | none => {}
    | some e =>
        { text := some e.textStripped, inStock := "out-of-stock" ∉ e.classes }
  if (selOne doc ".out-of-stock").isSome || (selOne doc ".sold-out").isSome then
    { text := if truthyOpt base.text then base.text else some "Out of Stock",
      inStock := false }
  else base

/-- Model of `ProductParser._clean_html_text`: split the
newline-separated text, strip every line, drop empties, re-join.  (The
`script`/`style` decomposition and `get_text` live in the `textSepNL`
oracle.) -/
def cleanHtmlText (e : Elem) : String :=
  let lines := ((pySplitOn e.textSepNL '\n').map pyStrip).filter (fun l => l ≠ "")
  String.intercalate "\n" lines

/-- Model of `ProductParser._extract_descriptions`. -/
def extractDescriptions (doc : Elem) : Option String × Option String :=
  let short := (selOne doc ".woocommerce-product-details__short-description").map cleanHtmlText
  let long :=
    match selOne doc "#tab-description" with
    | some t => some (cleanHtmlText t)
    | none => (selOne doc ".product-description").map cleanHtmlText
  (short, long)

/-- Model of `ProductParser._extract_additional_info`: rows of the
additional-information tab table, then rows of the generic attributes
table. -/
def extractAdditionalInfo (doc : Elem) : List (String × String) :=
  let tabRows :=
    match selOne doc "#tab-additional_information" with
    | none => []
    | some tab =>
        (qLookup tab "tr").foldl
          (fun acc row =>
            match selOne row "th", selOne row "td" with
            | some th, some td => acc ++ [(th.textStripped, td.textStripped)]
            | _, _ => acc) []
  (qLookup doc ".woocommerce-product-attributes tr").foldl
    (fun acc row =>
      match selOne row ".woocommerce-product-attributes-item__label",
            selOne row ".woocommerce-product-attributes-item__value" with
      | some l, some v => acc ++ [(l.textStripped, v.textStripped)]
      | _, _ => acc) tabRows

def categorySelectors : List String :=
  [".posted_in a", ".product_meta a[rel=tag]", "a[href*=/product-category/]"]

/-- Body of the category loop: dedup by name, slug from the raw href. -/
def categoryStep (currentUrl : String)
    (acc : List CategoryRec × List String) (link : Elem) : List CategoryRec × List String :=
  let href := (link.get "href").getD ""
  if strContainsSub href "/product-category/" then
    let name := link.textStripped
    if name ≠ "" && name ∉ acc.2 then
      let fullUrl := pyUrljoin currentUrl href
      let slug := ((pySplitOn (pyRstripSlash href) '/').getLast?).getD ""
      (acc.1 ++ [{ name := name, url := some fullUrl, slug := some slug }], acc.2 ++ [name])
    else acc
  else acc

/-- Model of `ProductParser._extract_categories`. -/
def extractCategories (doc : Elem) (currentUrl : String) : List CategoryRec :=
  (categorySelectors.foldl
    (fun acc sel => (qLookup doc sel).foldl (categoryStep currentUrl) acc) ([], [])).1

/-- Model of `ProductParser._extract_tags`. -/
def extractTags (doc : Elem) : List String :=
  match selOne doc ".tagged_as" with
  | none => []
  | some container =>
      (qLookup container "a").foldl
        (fun acc link =>
          let t := link.textStripped
          if t ≠ "" then acc ++ [t] else acc) []

/-! ### Image extraction (`_extract_images` / `_parse_image`)

These are the only extractors that can raise: `int(...)` on a present
but malformed `width`/`height`/`data-large_image_width`/
`data-large_image_height` attribute raises `ValueError`, which
propagates out of `parse`.  The `Except` monad models that. -/

/-- Model of `int(elem.get(attr, 0))`: the attribute defaults to the
integer `0` when absent; a present value goes through `int(str)` and
raises on malformed input. -/
def pyIntDefault0 (v : Option String) : Except String Int :=
  match v with
  | none => Except.ok 0
  | some s =>
      match pyInt s with
      | some n => Except.ok n
      | none => Except.error ("invalid literal for int with base 10: " ++ s)

/-- Model of `int(...) or None`: zero is falsy. -/
def intOrNone (n : Int) : Option Int :=
  if n = 0 then none else some n

/-- Model of the srcset-candidate loop in `_parse_image`: split on
commas, strip, split on whitespace; two or more parts yield a
resolved-URL candidate with either a numeric width (descriptor with the
trailing `w` removed parses as `int`) or the raw descriptor. -/
def parseSrcsetList (srcset currentUrl : String) : List SrcsetEntry :=
  (pySplitOn srcset ',').foldl
    (fun acc entry =>
      let parts := pySplitWs (pyStrip entry)
      match parts with
      | u :: d :: _ =>
          let url := pyUrljoin currentUrl u
          let widthStr := pyRstripChar d 'w'
          match pyInt widthStr with
          | some w => acc ++ [SrcsetEntry.widthEntry url w]
          | none => acc ++ [SrcsetEntry.descEntry url d]
      | _ => acc) []

/-- Model of
`max((s for s in srcset_data if isinstance(s.get("width"), int)), key=..., default=None)`:
Python's `max` keeps the first of several maximal elements, so the fold
replaces the running best only on a strictly greater width. -/
def largestStep (best : Option (String × Int)) (e : SrcsetEntry) : Option (String × Int) :=
  match e with
  | SrcsetEntry.widthEntry u w =>
      match best with
      | none => some (u, w)
      | some b => if w > b.2 then some (u, w) else some b
  | SrcsetEntry.descEntry _ _ => best

def largestNumericEntry (l : List SrcsetEntry) : Option (String × Int) :=
  l.foldl largestStep none

/-- The `src` fallback chain of `_parse_image`:
`img.get("src") or img.get("data-src") or img.get("data-lazy-src")`. -/
def imgSrcChain (img : Elem) : Option String :=
  pyOrStr (img.get "src") (pyOrStr (img.get "data-src") (img.get "data-lazy-src"))

/-- The srcset attribute chain: `img.get("srcset") or img.get("data-srcset")`. -/
def imgSrcsetChain (img : Elem) : Option String :=
  pyOrStr (img.get "srcset") (img.get "data-srcset")

/-- Srcset candidates of an `img`: the parsed entries when the srcset
attribute chain is truthy, else the empty list. -/
def srcsetCandidates (img : Elem) (currentUrl : String) : List SrcsetEntry :=
  match imgSrcsetChain img with
  | some ss => if ss ≠ "" then parseSrcsetList ss currentUrl else []
  | none => []

/-- Model of `ProductParser._parse_image`.  Returns `ok none` where the
source returns `None` (no usable `src`), and `error` where `int()`
raises on a malformed `width`/`height` attribute. -/
def parseImage (img : Elem) (currentUrl : String) : Except String (Option ProductImage) := do
  match imgSrcChain img with
  | none => return none
  | some src =>
      if src = "" then return none
      else
        let fullUrl := pyUrljoin currentUrl src
        let srcsetData := srcsetCandidates img currentUrl
        let resolvedUrl :=
          match largestNumericEntry srcsetData with
          | some best => best.1
          | none => fullUrl
        let w ← pyIntDefault0 (img.get "width")
        let h ← pyIntDefault0 (img.get "height")
        return some { url := resolvedUrl, alt := img.get "alt",
                      width := intOrNone w, height := intOrNone h,
                      srcset := srcsetData }

def mainImageSelectors : List String :=
  [".woocommerce-product-gallery__image img", ".wp-post-image",
   ".product-image img", ".single-product img.attachment-shop_single"]

def galleryImageSelectors : List String :=
  [".woocommerce-product-gallery__image", ".product-gallery-image",
   ".flex-control-thumbs img"]

/-- Main-image loop of `_extract_images`: first selector whose element
parses to an unseen image wins (`break`); a `None` parse or an
already-seen URL falls through to the next selector. -/
def mainImageLoop (doc : Elem) (currentUrl : String) :
    List String → List String → Except String (Option ProductImage × List String)
  | [], seen => Except.ok (none, seen)
  | sel :: rest, seen =>
      match selOne doc sel with
      | none => mainImageLoop doc currentUrl rest seen
      | some img => do
          let image ← parseImage img currentUrl
          match image with
          | some im =>
              if im.url ∈ seen then mainImageLoop doc currentUrl rest seen
              else Except.ok (some im, seen ++ [im.url])
          | none => mainImageLoop doc currentUrl rest seen

/-- In the gallery loop, `elem if elem.name == "img" else elem.select_one("img")`. -/
def galleryImgOf (elem : Elem) : Option Elem :=
  if elem.tagName = "img" then some elem else selOne elem "img"

/-- First half of the gallery loop body: the nested (or direct) `img`
element parsed and recorded if unseen. -/
def galleryImgPart (currentUrl : String) (acc : List ProductImage × List String)
    (elem : Elem) : Except String (List ProductImage × List String) :=
  match galleryImgOf elem with
  | none => Except.ok acc
  | some i => do
      let image ← parseImage i currentUrl
      match image with
      | some im =>
          if im.url ∈ acc.2 then Except.ok acc
          else Except.ok (acc.1 ++ [im], acc.2 ++ [im.url])
      | none => Except.ok acc

/-- Second half of the gallery loop body: the
`data-large_image`/`data-src` attribute path with its
`int(elem.get(...))` conversions.  Note, from the source: the raw
attribute value is tested against `seen_urls` but the *resolved* URL is
what gets recorded. -/
def galleryLargePart (currentUrl : String) (elem : Elem)
    (acc1 : List ProductImage × List String) :
    Except String (List ProductImage × List String) :=
  match pyOrStr (elem.get "data-large_image") (elem.get "data-src") with
  | none => Except.ok acc1
  | some ls =>
      if ls ≠ "" && ls ∉ acc1.2 then do
        let fullUrl := pyUrljoin currentUrl ls
        let w ← pyIntDefault0 (elem.get "data-large_image_width")
        let h ← pyIntDefault0 (elem.get "data-large_image_height")
        Except.ok (acc1.1 ++ [{ url := fullUrl, width := intOrNone w, height := intOrNone h }],
                   acc1.2 ++ [fullUrl])
      else Except.ok acc1

/-- One gallery container element: the `img` half, then the
`data-large_image` half, exactly as the two halves of the source loop
body. -/
def galleryElemStep (currentUrl : String) (acc : List ProductImage × List String)
    (elem : Elem) : Except String (List ProductImage × List String) := do
  let acc1 ← galleryImgPart currentUrl acc elem
  galleryLargePart currentUrl elem acc1

def galleryLoop (doc : Elem) (currentUrl : String) :
    List String → List ProductImage × List String →
    Except String (List ProductImage × List String)
  | [], acc => Except.ok acc
  | sel :: rest, acc => do
      let acc' ← (qLookup doc sel).foldlM (galleryElemStep currentUrl) acc
      galleryLoop doc currentUrl rest acc'

structure ImagesResult where
  main : Option ProductImage
  gallery : List ProductImage

/-- Model of `ProductParser._extract_images`. -/
def extractImages (doc : Elem) (currentUrl : String) : Except String ImagesResult := do
  let mainRes ← mainImageLoop doc currentUrl mainImageSelectors []
  let galleryRes ← galleryLoop doc currentUrl galleryImageSelectors ([], mainRes.2)
  return { main := mainRes.1, gallery := galleryRes.1 }

/-! ### Ingredients, allergens, nutrition, SKU -/

def ingredientKeywords : List String := ["ingredient", "ingredients", "contains"]

def allergenKeywords : List String := ["allergen", "allergy", "may contain"]

/-- Python `list(set(allergens))` modelled as first-occurrence dedup
(set iteration order is unspecified; only membership matters below). -/
def dedupFirst (l : List String) : List String :=
  l.foldl insertUnique []

/-- Model of `ProductParser._extract_ingredients_allergens`: keyword
scan over the generic text-bearing elements (`find_all` on
`div`/`section`/`p`/`span`, oracle key `div|section|p|span`). -/
def extractIngredientsAllergens (doc : Elem) : Option String × List String :=
  let scanned := (qLookup doc "div|section|p|span").foldl
    (fun (acc : Option String × List String) elem =>
      let lowText := elem.textStripped.toLower
      let ing := ingredientKeywords.foldl
        (fun (cur : Option String) kw =>
          if strContainsSub lowText kw && lowText.length < 2000 then
            let content := elem.textStripped
            if !(truthyOpt cur) || content.length > (cur.getD "").length then some content
            else cur
          else cur) acc.1
      let alg := allergenKeywords.foldl
        (fun (cur : List String) kw =>
          if strContainsSub lowText kw then
            let content := elem.textStripped
            if strContainsSub content ":" then
              cur ++ ((pySplitOn (pyAfterColon content) ',').map String.trim)
            else cur
          else cur) acc.2
      (ing, alg)) (none, [])
  (scanned.1, dedupFirst scanned.2)

def nutritionKeywords : List String := ["nutrition", "calories", "fat", "protein"]

/-- Model of the nutrition-table scan: any table whose `th` texts,
joined by spaces, contain a nutrition keyword contributes every row with at
least two cells (oracle keys `table`, `th`, `tr`, `td|th`). -/
def extractNutritionTable (doc : Elem) : List (String × String) :=
  (qLookup doc "table").foldl
    (fun acc table =>
      let headers := String.intercalate " "
        ((qLookup table "th").map (fun th => th.textStripped.toLower))
      if nutritionKeywords.any (fun kw => strContainsSub headers kw) then
        (qLookup table "tr").foldl
          (fun acc2 row =>
            match qLookup row "td|th" with
            | c0 :: c1 :: _ => acc2 ++ [(c0.textStripped, c1.textStripped)]
            | _ => acc2) acc
      else acc) []

def pdfKeywords : List String := ["nutrition", "ingredient", "spec"]

/-- Loop body of the PDF-link scan: first `a[href]` whose lowered href
contains `.pdf` and whose lowered text or href contains a keyword
(`break` on first match; the *original-case* href is resolved). -/
def pdfLoop : List Elem → String → Option String
  | [], _ => none
  | link :: rest, currentUrl =>
      let hrefRaw := (link.get "href").getD ""
      let href := hrefRaw.toLower
      let text := link.textStripped.toLower
      if strContainsSub href ".pdf" &&
         pdfKeywords.any (fun kw => strContainsSub text kw || strContainsSub href kw) then
        some (pyUrljoin currentUrl hrefRaw)
      else pdfLoop rest currentUrl

/-- Model of the nutrition-PDF scan of `_extract_nutrition` (oracle key
`a[href]` for `find_all("a", href=True)`). -/
def extractNutritionPdf (doc : Elem) (currentUrl : String) : Option String :=
  pdfLoop (qLookup doc "a[href]") currentUrl

/-- Model of `ProductParser._extract_sku`. -/
def extractSku (doc : Elem) : Option String :=
  match selOne doc ".sku" with
  | some e => some e.textStripped
  | none =>
      match selOne doc "meta[itemprop=sku]" with
      | some m => m.get "content"
      | none => none

/-- Model of `ProductParser.parse`: every extractor is called in source
order; only the image extractor can raise. -/
def parseProduct (doc : Elem) (productUrl : String) : Except String Product := do
  let slug := extractSlug productUrl
  let name := extractName doc
  let priceInfo := extractPrice doc
  let stockInfo := extractStock doc
  let descriptions := extractDescriptions doc
  let additionalInfo := extractAdditionalInfo doc
  let categories := extractCategories doc productUrl
  let tags := extractTags doc
  let images ← extractImages doc productUrl
  let ingAlg := extractIngredientsAllergens doc
  let nutrition := extractNutritionTable doc
  let nutritionPdf := extractNutritionPdf doc productUrl
  let sku := extractSku doc
  return { productUrl := productUrl, slug := slug, name := name,
           priceText := priceInfo.priceText, currencySymbol := priceInfo.currency,
           regularPrice := priceInfo.regularPrice, salePrice := priceInfo.salePrice,
           stockText := stockInfo.text, inStock := stockInfo.inStock,
           shortDescription := descriptions.1, longDescription := descriptions.2,
           additionalInformation := additionalInfo, categories := categories,
           tags := tags, mainImage := images.main, galleryImages := images.gallery,
           ingredients := ingAlg.1, allergens := ingAlg.2,
           nutritionInfo := nutrition, nutritionPdfUrl := nutritionPdf,
           sku := sku }

/-! ## Fetcher retry policy (`CatalogCrawler._fetch_page`)

The tenacity decorator on `_fetch_page` reads
`retry=retry_if_exception_type((RateLimitError, ServerError))` and
`stop=stop_after_attempt(3)` — the literal `3`, not the crawler's
configured `self.retries`.  `RateLimitError` is raised on status 429,
`ServerError` on any status `>= 500`, and `response.raise_for_status()`
turns the remaining `>= 400` statuses into an `HTTPStatusError`, which
is not in the retry predicate and therefore propagates on the first
attempt. -/

inductive StatusClass : Type where
  | success
  | rateLimited
  | serverError
  | clientError
deriving DecidableEq, Repr

/-- Status classification in the order `_fetch_page` tests it: 429
first, then `>= 500`, then `raise_for_status` for the remaining
`>= 400`. -/
def classifyStatus (s : Nat) : StatusClass :=
  if s = 429 then StatusClass.rateLimited
  else if s ≥ 500 then StatusClass.serverError
  else if s ≥ 400 then StatusClass.clientError
  else StatusClass.success

inductive FetchOutcome : Type where
  | ok : Nat → FetchOutcome
  | transientFail : Nat → FetchOutcome
  | permFail : Nat → FetchOutcome
deriving DecidableEq, Repr

/-- Number of attempts the outcome records. -/
def FetchOutcome.attempts : FetchOutcome → Nat
  | .ok n => n
  | .transientFail n => n
  | .permFail n => n

/-- The tenacity retry loop: `statuses n` is the HTTP status the server
returns on attempt `n` (1-based).  A transient failure retries while
`attempt < maxAttempts`; a client error propagates at once. -/
def retryLoop (statuses : Nat → Nat) (maxAttempts : Nat) : Nat → Nat → FetchOutcome
  | 0, attempt => FetchOutcome.transientFail attempt
  | fuel + 1, attempt =>
      match classifyStatus (statuses attempt) with
      | StatusClass.success => FetchOutcome.ok attempt
      | StatusClass.clientError => FetchOutcome.permFail attempt
      | _ =>
          if attempt < maxAttempts then
            retryLoop statuses maxAttempts fuel (attempt + 1)
          else FetchOutcome.transientFail attempt

/-- Model of a `_fetch_page` call on a crawler configured with
`retries`: the decorator's stop condition is the hardcoded
`stop_after_attempt(3)`; the `retries` field is carried by the crawler
but never consulted here. -/
def fetchPageOutcome (_retries : Nat) (statuses : Nat → Nat) : FetchOutcome :=
  retryLoop statuses 3 3 1

/-! ## Frontier state and orchestrator (`crawler.py`) -/

/-- `CrawlState` (`models/product.py`): `visited_urls` and
`product_urls` are Python sets, modelled as insertion-ordered
duplicate-free lists; `pending_urls` is the FIFO list. -/
structure CrawlState where
  visitedUrls : List String := []
  pendingUrls : List String := []
  productUrls : List String := []
deriving DecidableEq, Repr

/-- The durable `.crawl_state.json` checkpoint: three arrays (the JSON
round-trip of string arrays is lossless, so the file is modelled by its
parsed content; `last_updated` is wall-clock and outside the model). -/
structure SavedState where
  visitedUrls : List String
  pendingUrls : List String
  productUrls : List String
deriving DecidableEq, Repr

/-- Model of `CatalogCrawler._save_state`. -/
def saveState (st : CrawlState) : SavedState :=
  { visitedUrls := st.visitedUrls, pendingUrls := st.pendingUrls,
    productUrls := st.productUrls }

/-- Model of `CatalogCrawler._load_state`. -/
def loadState (s : SavedState) : CrawlState :=
  { visitedUrls := s.visitedUrls, pendingUrls := s.pendingUrls,
    productUrls := s.productUrls }

/-- The target site as the discovery phase sees it: `fetch url` is the
parsed document when `_fetch_page` eventually succeeds, `none` when it
raises (retries exhausted or permanent error). -/
structure Site where
  fetch : String → Option Elem

/-- Mutable run bookkeeping around the frontier: `pagesCrawled`,
`total_categories_found` and the report's error list. -/
structure RunState where
  state : CrawlState
  pagesCrawled : Nat := 0
  categoriesFound : Nat := 0
  errors : List String := []
deriving Repr

/-- Enqueue guard used for category and pagination URLs: skip when
already visited, skip when already pending, else append (FIFO). -/
def enqueueOne (visited : List String) (p : List String) (u : String) : List String :=
  if u ∈ visited then p else if u ∈ p then p else p ++ [u]

/-- Category enqueue also counts `total_categories_found`. -/
def enqueueCat (visited : List String) (pc : List String × Nat) (u : String) :
    List String × Nat :=
  if u ∈ visited then pc
  else if u ∈ pc.1 then pc
  else (pc.1 ++ [u], pc.2 + 1)

/-- One iteration of the `_discover_products` loop body after the pop:
`url` was popped from the front of `pending` (`rest` is the remainder).
Matches the source: a visited URL is skipped; a fetch failure records
the URL in the error list without marking it visited; a product page is
marked visited and added to `product_urls`; a listing page is marked
visited and its parsed links merged into the frontier. -/
def processUrl (baseUrl : String) (site : Site) (rs : RunState)
    (url : String) (rest : List String) : RunState :=
  if url ∈ rs.state.visitedUrls then
    { rs with state := { rs.state with pendingUrls := rest } }
  else
    match site.fetch url with
    | none =>
        { rs with state := { rs.state with pendingUrls := rest },
                  errors := rs.errors ++ [url] }
    | some doc =>
        let visited := insertUnique rs.state.visitedUrls url
        let pages := rs.pagesCrawled + 1
        if isProductPage doc then
          { rs with
            state := { visitedUrls := visited, pendingUrls := rest,
                       productUrls := insertUnique rs.state.productUrls url },
            pagesCrawled := pages }
        else
          let r := listingParse doc url baseUrl
          let products := r.productUrls.foldl insertUnique rs.state.productUrls
          let pendingCats := r.categoryUrls.foldl (enqueueCat visited) (rest, rs.categoriesFound)
          let pending := r.paginationUrls.foldl (enqueueOne visited) pendingCats.1
          { state := { visitedUrls := visited, pendingUrls := pending,
                       productUrls := products },
            pagesCrawled := pages, categoriesFound := pendingCats.2,
            errors := rs.errors }

/-- Truthiness guard `if self.max_pages and pages_crawled >= self.max_pages`:
`None` and `0` are both falsy, so neither ever stops discovery. -/
def maxPagesReached (maxPages : Option Nat) (pages : Nat) : Bool :=
  match maxPages with
  | none => false
  | some m => decide (m ≠ 0) && decide (pages ≥ m)

/-- The `_discover_products` while-loop, fuelled (the Python loop may
run as long as the frontier keeps growing). -/
def discoverLoop (baseUrl : String) (site : Site) (maxPages : Option Nat) :
    Nat → RunState → RunState
  | 0, rs => rs
  | fuel + 1, rs =>
      match rs.state.pendingUrls with
      | [] => rs
      | url :: rest =>
          if maxPagesReached maxPages rs.pagesCrawled then rs
          else discoverLoop baseUrl site maxPages fuel (processUrl baseUrl site rs url rest)

/-- Product-fetch phase (`_fetch_products` / `_fetch_product_with_semaphore`)
over the discovered product URLs: each URL is fetched and parsed;
success appends the `Product`, any failure appends to the error list;
the frontier state object is never written.  Cooperative concurrency
under the semaphore only permutes completion order, which no claim
below depends on, so the gather is modelled sequentially. -/
def fetchProductsPhase (site : Site) (urls : List String)
    (products : List Product) (errors : List String) :
    List Product × List String :=
  urls.foldl
    (fun acc url =>
      match site.fetch url with
      | none => (acc.1, acc.2 ++ [url])
      | some doc =>
          match parseProduct doc url with
          | Except.ok p => (acc.1 ++ [p], acc.2)
          | Except.error _ => (acc.1, acc.2 ++ [url]))
    (products, errors)

/-- One `catalog.jsonl` line: `product.model_dump_json()`.  Only the
line structure (one serialized record per product) matters to the
claims; the rendering keys the record by its identity fields. -/
def productJsonLine (p : Product) : String :=
  "\x7b\"product_url\": \"" ++ p.productUrl ++ "\", \"slug\": \"" ++ p.slug ++ "\"\x7d"

/-- Model of the JSONL half of `_save_results`: one line per product in
collection order. -/
def saveResultsJsonl (products : List Product) : List String :=
  products.map productJsonLine

/-- Final artefacts of `CatalogCrawler.run` the claims mention. -/
structure RunResult where
  finalState : CrawlState
  products : List Product
  errors : List String
  pagesCrawled : Nat
  jsonlLines : List String
  reportTotalProductsFound : Nat
deriving Repr

/-- Fresh-start frontier of `run`: `pending = [urljoin(base_url, start_path)]`
(the constructor has already applied `base_url.rstrip("/")`). -/
def freshState (baseUrl startPath : String) : CrawlState :=
  { visitedUrls := [], pendingUrls := [pyUrljoin baseUrl startPath], productUrls := [] }

/-- Model of `CatalogCrawler.run` from an initial frontier (fresh or
resumed): discovery, then the product-fetch phase, then
`_save_results` and the report counters.  `baseUrlRaw` is the
constructor argument before `rstrip("/")`. -/
def runCrawl (baseUrlRaw : String) (site : Site) (maxPages : Option Nat)
    (fuel : Nat) (st0 : CrawlState) : RunResult :=
  let baseUrl := pyRstripSlash baseUrlRaw
  let rs := discoverLoop baseUrl site maxPages fuel
    { state := st0, pagesCrawled := 0, categoriesFound := 0, errors := [] }
  let fetched := fetchProductsPhase site rs.state.productUrls [] rs.errors
  { finalState := rs.state, products := fetched.1, errors := fetched.2,
    pagesCrawled := rs.pagesCrawled,
    jsonlLines := saveResultsJsonl fetched.1,
    reportTotalProductsFound := fetched.1.length }

/-! ## CLI top level (`cli.py`)

The `KeyboardInterrupt` handler in `main` executes exactly two
statements: `console.print("\n[yellow]Crawl interrupted. State saved
for resume.[/yellow]")` and `sys.exit(1)`.  The model lists the
externally visible actions the handler performs, in order. -/

inductive CliAction : Type where
  | printMessage : String → CliAction
  | saveStateToDisk : CliAction
  | exitWithCode : Nat → CliAction
deriving DecidableEq, Repr

/-- Actions of the `except KeyboardInterrupt` branch of `cli.main`,
modelled from `cli.py` lines 148-150. -/
def keyboardInterruptActions : List CliAction :=
  [CliAction.printMessage "\n[yellow]Crawl interrupted. State saved for resume.[/yellow]",
   CliAction.exitWithCode 1]

/-! ## Concrete documents and sites used by the closed theorems below -/

/-- An anchor with an href and nothing else. -/
def mkLink (href : String) : Elem :=
  Elem.mk "a" [("href", href)] [] none "" "" []

/-- Listing page holding one pagination link that carries a query
string. -/
def queryPaginationDoc : Elem :=
  Elem.mk "html" [] [] none "" ""
    [(".woocommerce-pagination a", [mkLink "https://site.com/store/?paged=2"])]

/-- Listing page holding the same product twice: once with query and
fragment, once bare. -/
def canonPairDoc : Elem :=
  Elem.mk "html" [] [] none "" ""
    [("a[href*=/product/]",
      [mkLink "https://site.com/product/x/?ref=abc#section",
       mkLink "https://site.com/product/x/"])]

/-- Listing page linking a single product. -/
def storeListingDoc : Elem :=
  Elem.mk "html" [] [] none "" ""
    [("a[href*=/product/]", [mkLink "https://site.com/product/x/"])]

/-- Minimal well-formed product page (no image attributes at all). -/
def plainProductDoc : Elem :=
  Elem.mk "html" [] [] none "" "" [(".product_title", [Elem.mk "h1" [] [] none "X" "X" []])]

/-- Two-page site: the store listing and the product it links. -/
def twoPageSite : Site :=
  { fetch := fun u =>
      if u = "https://site.com/store/" then some storeListingDoc
      else if u = "https://site.com/product/x/" then some plainProductDoc
      else none }

/-- An `img` whose `width` attribute is not an integer literal. -/
def badWidthImg : Elem :=
  Elem.mk "img" [("src", "x.jpg"), ("width", "abc")] [] none "" "" []

/-- Product page whose main gallery image carries the malformed
`width` attribute. -/
def badWidthDoc : Elem :=
  Elem.mk "html" [] [] none "" ""
    [(".woocommerce-product-gallery__image img", [badWidthImg])]

/-- The spec's srcset example: three candidates of widths 300, 600 and
1200, plus a thumbnail `src`. -/
def srcsetExampleImg : Elem :=
  Elem.mk "img"
    [("src", "thumb.jpg"),
     ("srcset", "a300.jpg 300w, a600.jpg 600w, a1200.jpg 1200w")]
    [] none "" "" []

/-! ## Invariant and well-formedness predicates the claims quantify over -/

/-- Frontier dedup invariant (C6): no duplicates in `pending` and no
pending URL already visited. -/
def pendingInv (st : CrawlState) : Prop :=
  st.pendingUrls.Nodup ∧ ∀ u ∈ st.pendingUrls, u ∉ st.visitedUrls

/-- Same-origin invariant (C5): every pending URL and every known
product URL lives on the host of the configured base URL. -/
def onHost (b : String) (st : CrawlState) : Prop :=
  (∀ u ∈ st.pendingUrls, pyNetloc u = pyNetloc b) ∧
  (∀ u ∈ st.productUrls, pyNetloc u = pyNetloc b)

def exceptOkBool {ε α : Type} : Except ε α → Bool
  | Except.ok _ => true
  | Except.error _ => false

/-- The `width`/`height` attributes of an `img` are absent or parse as
integers (so `_parse_image` cannot raise on it). -/
def elemIntOk (e : Elem) : Bool :=
  exceptOkBool (pyIntDefault0 (e.get "width")) &&
  exceptOkBool (pyIntDefault0 (e.get "height"))

/-- A gallery container is safe: its `data-large_image_width`/`height`
attributes are absent or integral, and so are the `width`/`height` of
the `img` it exposes. -/
def galleryElemIntOk (e : Elem) : Bool :=
  exceptOkBool (pyIntDefault0 (e.get "data-large_image_width")) &&
  exceptOkBool (pyIntDefault0 (e.get "data-large_image_height")) &&
  (match galleryImgOf e with
   | some i => elemIntOk i
   | none => true)

/-- Every image element the extractor inspects on the page has
well-formed integer attributes. -/
def imageAttrsOk (doc : Elem) : Bool :=
  mainImageSelectors.all (fun sel =>
    match selOne doc sel with
    | some i => elemIntOk i
    | none => true) &&
  galleryImageSelectors.all (fun sel => (qLookup doc sel).all galleryElemIntOk)

/-! # Theorems -/

/-! ## General helper lemmas -/

theorem mem_insertUnique {l : List String} {x y : String} :
    y ∈ insertUnique l x ↔ y ∈ l ∨ y = x := by
  unfold insertUnique
  by_cases h : x ∈ l
  · simp only [h, if_true]
    constructor
    · exact Or.inl
    · rintro (hy | rfl)
      · exact hy
      · exact h
  · simp [h]

theorem foldlPreserves {α β : Type} (P : α → Prop) (step : List α → β → List α)
    (hstep : ∀ acc b, (∀ y ∈ acc, P y) → ∀ x ∈ step acc b, P x) :
    ∀ (l : List β) (acc : List α), (∀ y ∈ acc, P y) → ∀ x ∈ l.foldl step acc, P x := by
  intro l
  induction l with
  | nil => exact fun acc h x hx => h x hx
  | cons b bs ih =>
      intro acc h x hx
      exact ih (step acc b) (hstep acc b h) x hx

theorem maxPagesReached_some_zero (pages : Nat) :
    maxPagesReached (some 0) pages = false := by
  simp [maxPagesReached]

/-- C1.  The claim asserts a persistent 429 (or 5xx) is attempted
exactly `retries` times for every configured `retries`; in the code the
tenacity decorator hardcodes `stop_after_attempt(3)`, so a persistent
429 or 503 costs exactly 3 attempts regardless of the configured value
(last conjunct: configuring 5 retries still yields 3 attempts), while a
404 propagates after exactly one attempt. -/
theorem fetch_attempt_counts (retries : Nat) :
    fetchPageOutcome retries (fun _ => 429) = FetchOutcome.transientFail 3 ∧
    fetchPageOutcome retries (fun _ => 503) = FetchOutcome.transientFail 3 ∧
    fetchPageOutcome retries (fun _ => 404) = FetchOutcome.permFail 1 ∧
    (fetchPageOutcome 5 (fun _ => 429)).attempts = 3 :=
  ⟨rfl, rfl, rfl, rfl⟩

/-- C2.  The claim asserts the top-level interrupt handler flushes the
frontier state to durable storage before exiting non-zero; the
`except KeyboardInterrupt` branch of `cli.main` only prints a message
(which falsely announces "State saved for resume.") and exits 1 — no
state-save action occurs in the handler. -/
theorem interrupt_handler_never_saves :
    CliAction.saveStateToDisk ∉ keyboardInterruptActions ∧
    CliAction.exitWithCode 1 ∈ keyboardInterruptActions := by
  decide

/-- C9.  For every completed run, the number of `catalog.jsonl` lines
equals `report.total_products_found`: both are determined by the list
of successfully parsed products, one serialized record per line. -/
theorem jsonl_rows_eq_report_total (baseUrlRaw : String) (site : Site)
    (maxPages : Option Nat) (fuel : Nat) (st0 : CrawlState) :
    (runCrawl baseUrlRaw site maxPages fuel st0).jsonlLines.length =
    (runCrawl baseUrlRaw site maxPages fuel st0).reportTotalProductsFound := by
  simp [runCrawl, saveResultsJsonl]

/-- C10.  `--max-pages 0` falls to the falsy side of
`if self.max_pages and pages_crawled >= self.max_pages`, so discovery
with `max_pages = 0` is step-for-step identical to the default
`max_pages = None` (and so is the whole run): the limit is treated as
unbounded and discovery continues until `pending` empties. -/
theorem maxPages_zero_is_unbounded (baseUrl : String) (site : Site) :
    (∀ fuel rs, discoverLoop baseUrl site (some 0) fuel rs =
        discoverLoop baseUrl site none fuel rs) ∧
    (∀ fuel st0, runCrawl baseUrl site (some 0) fuel st0 =
        runCrawl baseUrl site none fuel st0) := by
  have hloop : ∀ (b : String) (fuel : Nat) (rs : RunState),
      discoverLoop b site (some 0) fuel rs = discoverLoop b site none fuel rs := by
    intro b fuel
    induction fuel with
    | zero => intro rs; rfl
    | succ n ih =>
        intro rs
        simp only [discoverLoop]
        cases rs.state.pendingUrls with
        | nil => rfl
        | cons url rest =>
            simp only [maxPagesReached_some_zero]
            simp only [maxPagesReached]
            exact ih _
  refine ⟨hloop baseUrl, ?_⟩
  intro fuel st0
  simp only [runCrawl, hloop]

/-! ## C3: canonicalization of extracted URLs -/

theorem stripQFChars_idem (l : List Char) :
    stripQFChars (stripQFChars l) = stripQFChars l := by
  induction l with
  | nil => rfl
  | cons c cs ih =>
      simp only [stripQFChars]
      by_cases h1 : c = '?'
      · simp [h1, stripQFChars]
      · by_cases h2 : c = '#'
        · simp [h1, h2, stripQFChars]
        · simp [h1, h2, stripQFChars, ih]

theorem stripQueryFragment_idem (s : String) :
    stripQueryFragment (stripQueryFragment s) = stripQueryFragment s := by
  show String.mk (stripQFChars (stripQFChars s.data)) = String.mk (stripQFChars s.data)
  rw [stripQFChars_idem]

theorem productLinkStep_strip (cur b : String) :
    ∀ acc link, (∀ y ∈ acc, stripQueryFragment y = y) →
      ∀ x ∈ productLinkStep cur b acc link, stripQueryFragment x = x := by
  intro acc link h x hx
  unfold productLinkStep at hx
  split at hx
  · exact h x hx
  · dsimp only [] at hx
    split at hx
    · split at hx
      · rcases mem_insertUnique.mp hx with hmem | rfl
        · exact h x hmem
        · exact stripQueryFragment_idem _
      · exact h x hx
    · exact h x hx

theorem categoryLinkStep_strip (cur b : String) :
    ∀ acc link, (∀ y ∈ acc, stripQueryFragment y = y) →
      ∀ x ∈ categoryLinkStep cur b acc link, stripQueryFragment x = x := by
  intro acc link h x hx
  unfold categoryLinkStep at hx
  split at hx
  · exact h x hx
  · dsimp only [] at hx
    split at hx
    · split at hx
      · rcases mem_insertUnique.mp hx with hmem | rfl
        · exact h x hmem
        · exact stripQueryFragment_idem _
      · exact h x hx
    · exact h x hx

theorem extractProductUrls_strip (d : Elem) (cur b : String) :
    ∀ u ∈ extractProductUrls d cur b, stripQueryFragment u = u := by
  unfold extractProductUrls
  refine foldlPreserves _ _ ?_ productLinkSelectors [] (by simp)
  intro acc sel h
  exact foldlPreserves _ _ (productLinkStep_strip cur b) (qLookup d sel) acc h

theorem extractCategoryUrls_strip (d : Elem) (cur b : String) :
    ∀ u ∈ extractCategoryUrls d cur b, stripQueryFragment u = u := by
  unfold extractCategoryUrls
  refine foldlPreserves _ _ ?_ categoryLinkSelectors [] (by simp)
  intro acc sel h
  exact foldlPreserves _ _ (categoryLinkStep_strip cur b) (qLookup d sel) acc h

/-- C3 (amended).  Product and category URLs extracted from a listing
page are resolved and canonicalized (stripping them again changes
nothing, i.e. they carry no query string or fragment), and the claim's
example pair — `/product/x/?ref=abc#section` and `/product/x/` —
collapses to the single frontier entry `https://site.com/product/x/`.
Pagination URLs, by contrast, are resolved but NOT canonicalized (see
the counterexample). -/
theorem listing_urls_canonicalized (d : Elem) (cur b : String) :
    (∀ u ∈ (listingParse d cur b).productUrls, stripQueryFragment u = u) ∧
    (∀ u ∈ (listingParse d cur b).categoryUrls, stripQueryFragment u = u) ∧
    extractProductUrls canonPairDoc "https://site.com/store/" "https://site.com" =
      ["https://site.com/product/x/"] := by
  refine ⟨?_, ?_, by decide⟩
  · exact extractProductUrls_strip d cur b
  · exact extractCategoryUrls_strip d cur b

/-- C3 (counterexample).  The claim as stated — every URL returned by
`parseListing`, pagination links included, is canonicalized — is false:
`_extract_pagination` inserts the resolved URL without the
`split("?")[0].split("#")[0]` step, so a pagination link carrying
`?paged=2` survives with its query string. -/
theorem pagination_url_keeps_query :
    ¬ (∀ u ∈ (listingParse queryPaginationDoc "https://site.com/store/"
          "https://site.com").paginationUrls, stripQueryFragment u = u) := by
  decide

/-- Witness for C3: the amended theorem applied to the example pair
document. -/
theorem listing_urls_canonicalized_witness :
    stripQueryFragment "https://site.com/product/x/" = "https://site.com/product/x/" :=
  (listing_urls_canonicalized canonPairDoc "https://site.com/store/" "https://site.com").1
    "https://site.com/product/x/" (by decide)

/-! ## C5: same-origin invariant

Stripping the query/fragment never changes the netloc, so URLs that
pass the extractors' host check still satisfy it after
canonicalization. -/

theorem takeWhile_netloc_strip (l : List Char) :
    (stripQFChars l).takeWhile isNetlocChar = l.takeWhile isNetlocChar := by
  induction l with
  | nil => rfl
  | cons c cs ih =>
      simp only [stripQFChars]
      by_cases h1 : c = '?'
      · subst h1
        simp [List.takeWhile_cons, isNetlocChar]
      · by_cases h2 : c = '#'
        · subst h2
          simp [List.takeWhile_cons, isNetlocChar]
        · simp only [h1, h2, if_false, List.takeWhile_cons]
          cases hc : isNetlocChar c <;> simp [hc, ih]

theorem schemeRest_strip (cs : List Char) :
    schemeRest (stripQFChars cs) = (schemeRest cs).map stripQFChars := by
  induction cs with
  | nil => rfl
  | cons c cs ih =>
      simp only [stripQFChars]
      by_cases h1 : c = '?'
      · subst h1
        simp [schemeRest, isSchemeChar]
      · by_cases h2 : c = '#'
        · subst h2
          simp [schemeRest, isSchemeChar]
        · simp only [h1, h2, if_false]
          by_cases hc : c = ':'
          · simp [schemeRest, hc]
          · by_cases hs : isSchemeChar c
            · simp [schemeRest, hc, hs, ih]
            · simp [schemeRest, hc, hs]

theorem dropScheme_strip (l : List Char) :
    dropScheme (stripQFChars l) = stripQFChars (dropScheme l) := by
  cases l with
  | nil => rfl
  | cons c cs =>
      simp only [stripQFChars]
      by_cases h1 : c = '?'
      · subst h1
        simp [dropScheme, stripQFChars]
      · by_cases h2 : c = '#'
        · subst h2
          simp [dropScheme, stripQFChars]
        · simp only [h1, h2, if_false]
          by_cases ha : c.isAlpha
          · simp only [dropScheme, ha, if_true, schemeRest_strip]
            cases hsr : schemeRest cs with
            | none => simp [stripQFChars, h1, h2]
            | some r => simp
          · simp [dropScheme, ha, stripQFChars, h1, h2]

theorem netlocChars_strip (l : List Char) :
    netlocChars (stripQFChars l) = netlocChars l := by
  unfold netlocChars
  rw [dropScheme_strip]
  generalize dropScheme l = d
  cases d with
  | nil => rfl
  | cons a rest =>
      by_cases ha1 : a = '?'
      · subst ha1
        simp [stripQFChars]
      · by_cases ha2 : a = '#'
        · subst ha2
          simp [stripQFChars]
        · by_cases ha : a = '/'
          · subst ha
            cases rest with
            | nil => simp [stripQFChars]
            | cons b rest2 =>
                by_cases hb1 : b = '?'
                · subst hb1
                  simp [stripQFChars]
                · by_cases hb2 : b = '#'
                  · subst hb2
                    simp [stripQFChars]
                  · by_cases hb : b = '/'
                    · subst hb
                      simp [stripQFChars, takeWhile_netloc_strip]
                    · simp only [stripQFChars, hb1, hb2, if_false]
                      cases rest2 <;> simp [hb]
          · simp only [stripQFChars, ha1, ha2, if_false]
            cases rest with
            | nil => simp [ha]
            | cons b rest2 =>
                by_cases hb1 : b = '?'
                · subst hb1
                  simp [stripQFChars, ha]
                · by_cases hb2 : b = '#'
                  · subst hb2
                    simp [stripQFChars, ha]
                  · simp only [stripQFChars, hb1, hb2, if_false]
                    simp [ha]

theorem pyNetloc_strip (s : String) :
    pyNetloc (stripQueryFragment s) = pyNetloc s := by
  show String.mk (netlocChars (stripQFChars s.data)) = String.mk (netlocChars s.data)
  rw [netlocChars_strip]

theorem productLinkStep_host (cur b : String) :
    ∀ acc link, (∀ y ∈ acc, pyNetloc y = pyNetloc b) →
      ∀ x ∈ productLinkStep cur b acc link, pyNetloc x = pyNetloc b := by
  intro acc link h x hx
  unfold productLinkStep at hx
  split at hx
  · exact h x hx
  · dsimp only [] at hx
    split at hx
    · rename_i hcond
      split at hx
      · rename_i hhost
        rcases mem_insertUnique.mp hx with hmem | rfl
        · exact h x hmem
        · rw [pyNetloc_strip]
          exact hhost
      · exact h x hx
    · exact h x hx

theorem categoryLinkStep_host (cur b : String) :
    ∀ acc link, (∀ y ∈ acc, pyNetloc y = pyNetloc b) →
      ∀ x ∈ categoryLinkStep cur b acc link, pyNetloc x = pyNetloc b := by
  intro acc link h x hx
  unfold categoryLinkStep at hx
  split at hx
  · exact h x hx
  · dsimp only [] at hx
    split at hx
    · rename_i hcond
      split at hx
      · rename_i hhost
        rcases mem_insertUnique.mp hx with hmem | rfl
        · exact h x hmem
        · rw [pyNetloc_strip]
          exact hhost
      · exact h x hx
    · exact h x hx

theorem extractProductUrls_host (d : Elem) (cur b : String) :
    ∀ u ∈ extractProductUrls d cur b, pyNetloc u = pyNetloc b := by
  unfold extractProductUrls
  refine foldlPreserves _ _ ?_ productLinkSelectors [] (by simp)
  intro acc sel h
  exact foldlPreserves _ _ (productLinkStep_host cur b) (qLookup d sel) acc h

theorem extractCategoryUrls_host (d : Elem) (cur b : String) :
    ∀ u ∈ extractCategoryUrls d cur b, pyNetloc u = pyNetloc b := by
  unfold extractCategoryUrls
  refine foldlPreserves _ _ ?_ categoryLinkSelectors [] (by simp)
  intro acc sel h
  exact foldlPreserves _ _ (categoryLinkStep_host cur b) (qLookup d sel) acc h

theorem paginationStep_host (cur b : String) :
    ∀ (acc : List String × Option String) link,
      (∀ y ∈ acc.1, pyNetloc y = pyNetloc b) →
      ∀ x ∈ (paginationStep cur b acc link).1, pyNetloc x = pyNetloc b := by
  intro acc link h x hx
  unfold paginationStep at hx
  split at hx
  · exact h x hx
  · dsimp only [] at hx
    split at hx
    · dsimp only [] at hx
      split at hx
      · rename_i hhost
        rcases mem_insertUnique.mp hx with hmem | rfl
        · exact h x hmem
        · exact hhost
      · exact h x hx
    · exact h x hx

theorem paginationFold_host (d : Elem) (cur b : String) :
    ∀ (sels : List String) (acc : List String × Option String),
      (∀ y ∈ acc.1, pyNetloc y = pyNetloc b) →
      ∀ x ∈ (sels.foldl
          (fun acc sel => (qLookup d sel).foldl (paginationStep cur b) acc) acc).1,
        pyNetloc x = pyNetloc b := by
  intro sels
  induction sels with
  | nil => exact fun acc h x hx => h x hx
  | cons sel rest ih =>
      intro acc h x hx
      refine ih _ ?_ x hx
      have hlinks : ∀ (links : List Elem) (acc2 : List String × Option String),
          (∀ y ∈ acc2.1, pyNetloc y = pyNetloc b) →
          ∀ z ∈ (links.foldl (paginationStep cur b) acc2).1, pyNetloc z = pyNetloc b := by
        intro links
        induction links with
        | nil => exact fun acc2 h2 z hz => h2 z hz
        | cons l ls ihl =>
            intro acc2 h2 z hz
            exact ihl _ (paginationStep_host cur b acc2 l h2) z hz
      exact hlinks (qLookup d sel) acc h

theorem extractPagination_host (d : Elem) (cur b : String) :
    ∀ u ∈ (extractPagination d cur b).1, pyNetloc u = pyNetloc b := by
  unfold extractPagination
  dsimp only []
  have hfold := paginationFold_host d cur b paginationSelectors ([], none) (by simp)
  split
  · exact hfold
  · split
    · exact hfold
    · split
      · exact hfold
      · exact hfold

theorem mem_foldl_insertUnique :
    ∀ (l : List String) (acc : List String) (x : String),
      x ∈ l.foldl insertUnique acc → x ∈ acc ∨ x ∈ l := by
  intro l
  induction l with
  | nil => exact fun acc x hx => Or.inl hx
  | cons y ys ih =>
      intro acc x hx
      rcases ih (insertUnique acc y) x hx with h | h
      · rcases mem_insertUnique.mp h with h2 | rfl
        · exact Or.inl h2
        · exact Or.inr (List.mem_cons_self _ _)
      · exact Or.inr (List.mem_cons_of_mem _ h)

theorem mem_enqueueOne (v p : List String) (u x : String) :
    x ∈ enqueueOne v p u → x ∈ p ∨ x = u := by
  intro hx
  unfold enqueueOne at hx
  split at hx
  · exact Or.inl hx
  · split at hx
    · exact Or.inl hx
    · rcases List.mem_append.mp hx with h | h
      · exact Or.inl h
      · exact Or.inr (List.mem_singleton.mp h)

theorem mem_foldl_enqueueOne (v : List String) :
    ∀ (l : List String) (p : List String) (x : String),
      x ∈ l.foldl (enqueueOne v) p → x ∈ p ∨ x ∈ l := by
  intro l
  induction l with
  | nil => exact fun p x hx => Or.inl hx
  | cons y ys ih =>
      intro p x hx
      rcases ih (enqueueOne v p y) x hx with h | h
      · rcases mem_enqueueOne v p y x h with h2 | rfl
        · exact Or.inl h2
        · exact Or.inr (List.mem_cons_self _ _)
      · exact Or.inr (List.mem_cons_of_mem _ h)

theorem enqueueCat_fst (v : List String) (pc : List String × Nat) (u : String) :
    (enqueueCat v pc u).1 = enqueueOne v pc.1 u := by
  unfold enqueueCat enqueueOne
  split
  · rfl
  · split
    · rfl
    · rfl

theorem foldl_enqueueCat_fst (v : List String) :
    ∀ (l : List String) (pc : List String × Nat),
      (l.foldl (enqueueCat v) pc).1 = l.foldl (enqueueOne v) pc.1 := by
  intro l
  induction l with
  | nil => exact fun pc => rfl
  | cons y ys ih =>
      intro pc
      rw [List.foldl_cons, List.foldl_cons, ih, enqueueCat_fst]

theorem processUrl_onHost (b : String) (site : Site) (rs : RunState)
    (url : String) (rest : List String)
    (hpend : rs.state.pendingUrls = url :: rest)
    (h : onHost b rs.state) : onHost b (processUrl b site rs url rest).state := by
  obtain ⟨hp, hq⟩ := h
  rw [hpend] at hp
  have hrest : ∀ u ∈ rest, pyNetloc u = pyNetloc b :=
    fun u hu => hp u (List.mem_cons_of_mem _ hu)
  have hurl : pyNetloc url = pyNetloc b := hp url (List.mem_cons_self _ _)
  unfold processUrl
  split
  · exact ⟨hrest, hq⟩
  · split
    · exact ⟨hrest, hq⟩
    · rename_i doc hfetch
      dsimp only []
      split
      · refine ⟨hrest, ?_⟩
        intro u hu
        rcases mem_insertUnique.mp hu with hmem | rfl
        · exact hq u hmem
        · exact hurl
      · constructor
        · intro u hu
          dsimp only [] at hu
          rw [foldl_enqueueCat_fst] at hu
          rcases mem_foldl_enqueueOne _ _ _ _ hu with h1 | h1
          · rcases mem_foldl_enqueueOne _ _ _ _ h1 with h2 | h2
            · exact hrest u h2
            · exact extractCategoryUrls_host doc url b u h2
          · exact extractPagination_host doc url b u h1
        · intro u hu
          dsimp only [] at hu
          rcases mem_foldl_insertUnique _ _ _ hu with h1 | h1
          · exact hq u h1
          · exact extractProductUrls_host doc url b u h1

theorem discoverLoop_onHost (b : String) (site : Site) (mp : Option Nat) :
    ∀ (fuel : Nat) (rs : RunState),
      onHost b rs.state → onHost b (discoverLoop b site mp fuel rs).state := by
  intro fuel
  induction fuel with
  | zero => exact fun rs h => h
  | succ n ih =>
      intro rs h
      cases hpend : rs.state.pendingUrls with
      | nil =>
          simp only [discoverLoop, hpend]
          exact h
      | cons url rest =>
          simp only [discoverLoop, hpend]
          split
          · exact h
          · exact ih _ (processUrl_onHost b site rs url rest hpend h)

/-- C5.  Given a frontier whose pending and product URLs all live on
the host of the configured base URL (in particular the fresh frontier
of a start URL on the base host), every discovery step preserves that:
no cross-host URL is ever present in `pending` or `productUrls`, during
the loop and in the final state of a whole run — all three listing-page
link extractors discard links whose netloc differs from the base
URL's. -/
theorem crawl_same_origin (b braw : String) (site : Site) (mp : Option Nat)
    (fuel : Nat) (rs : RunState) (st0 : CrawlState) :
    (onHost b rs.state → onHost b (discoverLoop b site mp fuel rs).state) ∧
    (onHost (pyRstripSlash braw) st0 →
      onHost (pyRstripSlash braw) (runCrawl braw site mp fuel st0).finalState) := by
  constructor
  · exact discoverLoop_onHost b site mp fuel rs
  · intro h
    have := discoverLoop_onHost (pyRstripSlash braw) site mp fuel
      { state := st0, pagesCrawled := 0, categoriesFound := 0, errors := [] } h
    simpa [runCrawl] using this

/-- Witness for C5: the two-page site crawled from its on-host store
URL. -/
theorem crawl_same_origin_witness :
    onHost "https://site.com"
      (discoverLoop "https://site.com" twoPageSite none 4
        { state := freshState "https://site.com" "/store/" }).state ∧
    onHost (pyRstripSlash "https://site.com")
      (runCrawl "https://site.com" twoPageSite none 4
        (freshState "https://site.com" "/store/")).finalState :=
  ⟨(crawl_same_origin "https://site.com" "https://site.com" twoPageSite none 4
      { state := freshState "https://site.com" "/store/" }
      (freshState "https://site.com" "/store/")).1 ⟨by decide, by decide⟩,
   (crawl_same_origin "https://site.com" "https://site.com" twoPageSite none 4
      { state := freshState "https://site.com" "/store/" }
      (freshState "https://site.com" "/store/")).2 ⟨by decide, by decide⟩⟩

/-! ## C6: pending dedup invariant -/

theorem enqueueOne_inv (v p : List String) (u : String)
    (hnd : p.Nodup) (hdis : ∀ x ∈ p, x ∉ v) :
    (enqueueOne v p u).Nodup ∧ ∀ x ∈ enqueueOne v p u, x ∉ v := by
  unfold enqueueOne
  split
  · exact ⟨hnd, hdis⟩
  · split
    · exact ⟨hnd, hdis⟩
    · rename_i hv hp
      constructor
      · rw [List.nodup_append]
        exact ⟨hnd, List.nodup_singleton u,
          fun x hx hx2 => hp ((List.mem_singleton.mp hx2) ▸ hx)⟩
      · intro x hx
        rcases List.mem_append.mp hx with h1 | h1
        · exact hdis x h1
        · exact (List.mem_singleton.mp h1) ▸ hv

theorem foldl_enqueueOne_inv (v : List String) :
    ∀ (l : List String) (p : List String), p.Nodup → (∀ x ∈ p, x ∉ v) →
      (l.foldl (enqueueOne v) p).Nodup ∧ ∀ x ∈ l.foldl (enqueueOne v) p, x ∉ v := by
  intro l
  induction l with
  | nil => exact fun p hnd hdis => ⟨hnd, hdis⟩
  | cons y ys ih =>
      intro p hnd hdis
      obtain ⟨hnd2, hdis2⟩ := enqueueOne_inv v p y hnd hdis
      exact ih _ hnd2 hdis2

theorem processUrl_pendingInv (b : String) (site : Site) (rs : RunState)
    (url : String) (rest : List String)
    (hpend : rs.state.pendingUrls = url :: rest)
    (h : pendingInv rs.state) : pendingInv (processUrl b site rs url rest).state := by
  obtain ⟨hnd, hdis⟩ := h
  rw [hpend] at hnd hdis
  have hndr : rest.Nodup := hnd.of_cons
  have hnr : url ∉ rest := (List.nodup_cons.mp hnd).1
  have hdisr : ∀ x ∈ rest, x ∉ rs.state.visitedUrls :=
    fun x hx => hdis x (List.mem_cons_of_mem _ hx)
  have hdisr2 : ∀ x ∈ rest, x ∉ insertUnique rs.state.visitedUrls url := by
    intro x hx hmem
    rcases mem_insertUnique.mp hmem with h1 | rfl
    · exact hdisr x hx h1
    · exact hnr hx
  unfold processUrl
  split
  · exact ⟨hndr, hdisr⟩
  · split
    · exact ⟨hndr, hdisr⟩
    · dsimp only []
      split
      · exact ⟨hndr, hdisr2⟩
      · constructor
        · dsimp only []
          rw [foldl_enqueueCat_fst]
          refine (foldl_enqueueOne_inv _ _ _ ?_ ?_).1
          · exact (foldl_enqueueOne_inv _ _ _ hndr hdisr2).1
          · exact (foldl_enqueueOne_inv _ _ _ hndr hdisr2).2
        · dsimp only []
          rw [foldl_enqueueCat_fst]
          refine (foldl_enqueueOne_inv _ _ _ ?_ ?_).2
          · exact (foldl_enqueueOne_inv _ _ _ hndr hdisr2).1
          · exact (foldl_enqueueOne_inv _ _ _ hndr hdisr2).2

theorem discoverLoop_pendingInv (b : String) (site : Site) (mp : Option Nat) :
    ∀ (fuel : Nat) (rs : RunState),
      pendingInv rs.state → pendingInv (discoverLoop b site mp fuel rs).state := by
  intro fuel
  induction fuel with
  | zero => exact fun rs h => h
  | succ n ih =>
      intro rs h
      cases hpend : rs.state.pendingUrls with
      | nil =>
          simp only [discoverLoop, hpend]
          exact h
      | cons url rest =>
          simp only [discoverLoop, hpend]
          split
          · exact h
          · exact ih _ (processUrl_pendingInv b site rs url rest hpend h)

/-- C6.  During discovery, `pending` never holds a visited URL and
never holds a URL twice: the invariant is preserved by every discovery
step (so by the whole loop), enqueueing a URL that is already visited
or already pending is a no-op, and a state save/load round-trip
restores the frontier verbatim. -/
theorem frontier_dedup_invariant (b : String) (site : Site) (mp : Option Nat)
    (fuel : Nat) (rs : RunState) (v p : List String) (u : String) (st : CrawlState) :
    (pendingInv rs.state → pendingInv (discoverLoop b site mp fuel rs).state) ∧
    (u ∈ v ∨ u ∈ p → enqueueOne v p u = p) ∧
    loadState (saveState st) = st := by
  refine ⟨discoverLoop_pendingInv b site mp fuel rs, ?_, rfl⟩
  intro hu
  unfold enqueueOne
  by_cases hv : u ∈ v
  · rw [if_pos hv]
  · rw [if_neg hv]
    rcases hu with h | h
    · exact absurd h hv
    · rw [if_pos h]

/-- Witness for C6: the deduplication invariant holds for the fresh
frontier of the two-page site and is preserved by a four-step
discovery; enqueueing the already-pending store URL is a no-op. -/
theorem frontier_dedup_invariant_witness :
    pendingInv (discoverLoop "https://site.com" twoPageSite none 4
      { state := freshState "https://site.com" "/store/" }).state ∧
    enqueueOne [] ["https://site.com/store/"] "https://site.com/store/" =
      ["https://site.com/store/"] ∧
    loadState (saveState (freshState "https://site.com" "/store/")) =
      freshState "https://site.com" "/store/" :=
  ⟨(frontier_dedup_invariant "https://site.com" twoPageSite none 4
      { state := freshState "https://site.com" "/store/" } []
      ["https://site.com/store/"] "https://site.com/store/"
      (freshState "https://site.com" "/store/")).1 ⟨by decide, by decide⟩,
   (frontier_dedup_invariant "https://site.com" twoPageSite none 4
      { state := freshState "https://site.com" "/store/" } []
      ["https://site.com/store/"] "https://site.com/store/"
      (freshState "https://site.com" "/store/")).2.1 (Or.inr (by decide)),
   (frontier_dedup_invariant "https://site.com" twoPageSite none 4
      { state := freshState "https://site.com" "/store/" } []
      ["https://site.com/store/"] "https://site.com/store/"
      (freshState "https://site.com" "/store/")).2.2⟩

/-! ## C7: product URLs versus visited -/

/-- C7 (amended).  A URL added to `productUrls` during discovery
because its own fetched page was recognized as a product page is marked
visited in the same step; but the product-fetch phase never writes the
frontier at all — `_fetch_product_with_semaphore` contains no
`visited_urls.add` — so the run's final state is exactly the discovery
state and `productUrls` need not be a subset of `visited` (see the
counterexample). -/
theorem product_page_discovery_visits (b : String) (site : Site) (rs : RunState)
    (url : String) (rest : List String) (doc : Elem) (mp : Option Nat)
    (fuel : Nat) (st0 : CrawlState)
    (hv : url ∉ rs.state.visitedUrls)
    (hf : site.fetch url = some doc)
    (hp : isProductPage doc = true) :
    (url ∈ (processUrl b site rs url rest).state.visitedUrls ∧
     url ∈ (processUrl b site rs url rest).state.productUrls) ∧
    (runCrawl b site mp fuel st0).finalState =
      (discoverLoop (pyRstripSlash b) site mp fuel
        { state := st0, pagesCrawled := 0, categoriesFound := 0, errors := [] }).state := by
  constructor
  · unfold processUrl
    rw [if_neg hv, hf]
    dsimp only []
    rw [if_pos hp]
    exact ⟨mem_insertUnique.mpr (Or.inr rfl), mem_insertUnique.mpr (Or.inr rfl)⟩
  · rfl

/-- C7 (counterexample).  A completed run over the two-page site leaves
the linked product URL in `productUrls` but never in `visited`: the
claim that `productUrls ⊆ visited` after the product-fetch phase is
false. -/
theorem product_url_never_visited :
    "https://site.com/product/x/" ∈
      (runCrawl "https://site.com" twoPageSite none 4
        (freshState "https://site.com" "/store/")).finalState.productUrls ∧
    "https://site.com/product/x/" ∉
      (runCrawl "https://site.com" twoPageSite none 4
        (freshState "https://site.com" "/store/")).finalState.visitedUrls := by
  decide

/-- Witness for C7: the amended theorem at a one-product state on the
two-page site. -/
theorem product_page_discovery_visits_witness :
    "https://site.com/product/x/" ∈
      (processUrl "https://site.com" twoPageSite
        { state := { pendingUrls := ["https://site.com/product/x/"] } }
        "https://site.com/product/x/" []).state.visitedUrls ∧
    "https://site.com/product/x/" ∈
      (processUrl "https://site.com" twoPageSite
        { state := { pendingUrls := ["https://site.com/product/x/"] } }
        "https://site.com/product/x/" []).state.productUrls :=
  (product_page_discovery_visits "https://site.com" twoPageSite
    { state := { pendingUrls := ["https://site.com/product/x/"] } }
    "https://site.com/product/x/" [] plainProductDoc none 1
    (freshState "https://site.com" "/store/")
    (by decide) rfl (by decide)).1

/-! ## C8: largest-width srcset candidate wins -/

theorem foldl_largestStep_eq (u : String) (w : Int) :
    ∀ (l : List SrcsetEntry) (best : Option (String × Int)),
      (SrcsetEntry.widthEntry u w ∈ l ∨ best = some (u, w)) →
      (∀ u2 w2, SrcsetEntry.widthEntry u2 w2 ∈ l → (u2 = u ∧ w2 = w) ∨ w2 < w) →
      (∀ q, best = some q → q = (u, w) ∨ q.2 < w) →
      l.foldl largestStep best = some (u, w) := by
  intro l
  induction l with
  | nil =>
      intro best hmem hbl hbb
      rcases hmem with h | h
      · exact absurd h (List.not_mem_nil _)
      · exact h
  | cons e rest ih =>
      intro best hmem hbl hbb
      rw [List.foldl_cons]
      have hbl2 : ∀ u2 w2, SrcsetEntry.widthEntry u2 w2 ∈ rest → (u2 = u ∧ w2 = w) ∨ w2 < w :=
        fun u2 w2 h2 => hbl u2 w2 (List.mem_cons_of_mem _ h2)
      cases e with
      | descEntry du dd =>
          refine ih (largestStep best (SrcsetEntry.descEntry du dd)) ?_ hbl2 ?_
          · rcases hmem with h | h
            · rcases List.mem_cons.mp h with h2 | h2
              · exact absurd h2 (by simp)
              · exact Or.inl h2
            · exact Or.inr h
          · exact hbb
      | widthEntry u2 w2 =>
          have hhead : (u2 = u ∧ w2 = w) ∨ w2 < w :=
            hbl u2 w2 (List.mem_cons_self _ _)
          have hbb2 : ∀ q, largestStep best (SrcsetEntry.widthEntry u2 w2) = some q →
              q = (u, w) ∨ q.2 < w := by
            intro q hq
            unfold largestStep at hq
            cases hbest : best with
            | none =>
                rw [hbest] at hq
                dsimp only [] at hq
                rcases hhead with ⟨rfl, rfl⟩ | hlt
                · exact Or.inl (Option.some.inj hq).symm
                · rw [← Option.some.inj hq]
                  exact Or.inr hlt
            | some bb =>
                rw [hbest] at hq
                dsimp only [] at hq
                split at hq
                · rcases hhead with ⟨rfl, rfl⟩ | hlt
                  · exact Or.inl (Option.some.inj hq).symm
                  · rw [← Option.some.inj hq]
                    exact Or.inr hlt
                · rw [← Option.some.inj hq]
                  exact hbb bb hbest
          refine ih _ ?_ hbl2 hbb2
          rcases hmem with h | h
          · rcases List.mem_cons.mp h with h2 | h2
            · have heq : u2 = u ∧ w2 = w := by
                have := h2.symm
                injection this with h3 h4
                exact ⟨h3, h4⟩
              obtain ⟨rfl, rfl⟩ := heq
              unfold largestStep
              cases hbest : best with
              | none => exact Or.inr rfl
              | some bb =>
                  dsimp only []
                  rcases hbb bb hbest with rfl | hlt
                  · split
                    · exact Or.inr rfl
                    · exact Or.inr rfl
                  · rw [if_pos hlt]
                    exact Or.inr rfl
            · exact Or.inl h2
          · rcases hbb (u, w) h with _ | hlt
            · unfold largestStep
              rw [h]
              dsimp only []
              rcases hhead with ⟨rfl, rfl⟩ | hlt2
              · split
                · exact Or.inr rfl
                · exact Or.inr rfl
              · rw [if_neg (by omega)]
                exact Or.inr rfl
            · exact absurd hlt (by omega)

theorem largestNumericEntry_of_strictMax (u : String) (w : Int) (l : List SrcsetEntry)
    (hmem : SrcsetEntry.widthEntry u w ∈ l)
    (hmax : ∀ u2 w2, SrcsetEntry.widthEntry u2 w2 ∈ l → (u2 = u ∧ w2 = w) ∨ w2 < w) :
    largestNumericEntry l = some (u, w) :=
  foldl_largestStep_eq u w l none (Or.inl hmem) hmax (fun q hq => by cases hq)

/-- C8.  When the srcset attribute chain of an `img` yields a candidate
whose numeric width strictly exceeds every other numeric candidate's,
`_parse_image` resolves the image to that candidate's URL — not to the
`src` attribute — and otherwise copies alt/width/height and the full
candidate list. -/
theorem srcset_largest_width_selected (img : Elem) (cur u : String) (w wa ha : Int)
    (hsrc : truthyOpt (imgSrcChain img) = true)
    (hmem : SrcsetEntry.widthEntry u w ∈ srcsetCandidates img cur)
    (hmax : ∀ u2 w2, SrcsetEntry.widthEntry u2 w2 ∈ srcsetCandidates img cur →
        (u2 = u ∧ w2 = w) ∨ w2 < w)
    (hw : pyIntDefault0 (img.get "width") = Except.ok wa)
    (hh : pyIntDefault0 (img.get "height") = Except.ok ha) :
    parseImage img cur = Except.ok (some
      { url := u, alt := img.get "alt", width := intOrNone wa,
        height := intOrNone ha, srcset := srcsetCandidates img cur }) := by
  obtain ⟨src, hchain⟩ : ∃ s, imgSrcChain img = some s := by
    cases h : imgSrcChain img with
    | none => rw [h] at hsrc; simp [truthyOpt] at hsrc
    | some s => exact ⟨s, rfl⟩
  have hne : src ≠ "" := by
    rw [hchain] at hsrc
    simpa [truthyOpt] using hsrc
  have hlarge : largestNumericEntry (srcsetCandidates img cur) = some (u, w) :=
    largestNumericEntry_of_strictMax u w _ hmem hmax
  unfold parseImage
  rw [hchain]
  dsimp only []
  rw [if_neg hne]
  simp only [hlarge, hw, hh]
  rfl

/-- Witness for C8: the spec's 300/600/1200 example; the resolved URL
is the 1200-wide variant, not `thumb.jpg`. -/
theorem srcset_largest_width_selected_witness :
    parseImage srcsetExampleImg "https://site.com/p/" =
      Except.ok (some
        { url := "https://site.com/p/a1200.jpg",
          alt := srcsetExampleImg.get "alt",
          width := intOrNone 0, height := intOrNone 0,
          srcset := srcsetCandidates srcsetExampleImg "https://site.com/p/" }) :=
  srcset_largest_width_selected srcsetExampleImg "https://site.com/p/"
    "https://site.com/p/a1200.jpg" 1200 0 0 (by decide) (by decide)
    (by
      intro u2 w2 h
      have hc : srcsetCandidates srcsetExampleImg "https://site.com/p/" =
          [SrcsetEntry.widthEntry "https://site.com/p/a300.jpg" 300,
           SrcsetEntry.widthEntry "https://site.com/p/a600.jpg" 600,
           SrcsetEntry.widthEntry "https://site.com/p/a1200.jpg" 1200] := by decide
      rw [hc] at h
      rcases List.mem_cons.mp h with h1 | h
      · injection h1 with e1 e2
        subst e1; subst e2
        right; decide
      · rcases List.mem_cons.mp h with h1 | h
        · injection h1 with e1 e2
          subst e1; subst e2
          right; decide
        · rcases List.mem_cons.mp h with h1 | h
          · injection h1 with e1 e2
            subst e1; subst e2
            left; exact ⟨rfl, rfl⟩
          · exact absurd h (List.not_mem_nil _))
    rfl rfl


/-! ## C4: totality of the product parser -/

theorem bind_ok_reduce {ε α β : Type} (a : α) (f : α → Except ε β) :
    (Except.ok a >>= f) = f a := rfl

theorem exceptOkBool_iff {ε α : Type} (e : Except ε α) :
    exceptOkBool e = true ↔ ∃ a, e = Except.ok a := by
  cases e <;> simp [exceptOkBool]

theorem parseImage_ok (i : Elem) (cur : String) (h : elemIntOk i = true) :
    ∃ r, parseImage i cur = Except.ok r := by
  unfold elemIntOk at h
  rw [Bool.and_eq_true] at h
  obtain ⟨hw, hh⟩ := h
  obtain ⟨wa, hwa⟩ := (exceptOkBool_iff _).mp hw
  obtain ⟨ha, hha⟩ := (exceptOkBool_iff _).mp hh
  rw [← exceptOkBool_iff]
  unfold parseImage
  cases hchain : imgSrcChain i with
  | none => rfl
  | some s =>
      dsimp only []
      by_cases hs : s = ""
      · rw [if_pos hs]
        rfl
      · rw [if_neg hs]
        simp only [hwa, hha, bind_ok_reduce]
        rfl

theorem mainImageLoop_ok (doc : Elem) (cur : String) :
    ∀ (sels : List String) (seen : List String),
      (∀ sel ∈ sels,
        (match selOne doc sel with
         | some i => elemIntOk i
         | none => true) = true) →
      ∃ r, mainImageLoop doc cur sels seen = Except.ok r := by
  intro sels
  induction sels with
  | nil => exact fun seen _ => ⟨(none, seen), rfl⟩
  | cons sel rest ih =>
      intro seen h
      have hrest : ∀ s ∈ rest,
          (match selOne doc s with
           | some i => elemIntOk i
           | none => true) = true :=
        fun s hs => h s (List.mem_cons_of_mem _ hs)
      have hsel := h sel (List.mem_cons_self _ _)
      unfold mainImageLoop
      cases hone : selOne doc sel with
      | none => exact ih seen hrest
      | some i =>
          rw [hone] at hsel
          dsimp only [] at hsel
          obtain ⟨r, hr⟩ := parseImage_ok i cur hsel
          simp only [hr, bind_ok_reduce]
          cases r with
          | none => exact ih seen hrest
          | some im =>
              dsimp only []
              by_cases hseen : im.url ∈ seen
              · rw [if_pos hseen]
                exact ih seen hrest
              · rw [if_neg hseen]
                exact ⟨(some im, seen ++ [im.url]), rfl⟩

theorem galleryImgPart_ok (cur : String) (acc : List ProductImage × List String)
    (e : Elem)
    (himg : (match galleryImgOf e with
             | some i => elemIntOk i
             | none => true) = true) :
    ∃ a1, galleryImgPart cur acc e = Except.ok a1 := by
  unfold galleryImgPart
  cases hio : galleryImgOf e with
  | none => exact ⟨acc, rfl⟩
  | some i =>
      rw [hio] at himg
      dsimp only [] at himg
      obtain ⟨r, hr⟩ := parseImage_ok i cur himg
      simp only [hr, bind_ok_reduce]
      cases r with
      | none => exact ⟨acc, rfl⟩
      | some im =>
          dsimp only []
          by_cases hseen : im.url ∈ acc.2
          · rw [if_pos hseen]
            exact ⟨acc, rfl⟩
          · rw [if_neg hseen]
            exact ⟨(acc.1 ++ [im], acc.2 ++ [im.url]), rfl⟩

theorem galleryLargePart_ok (cur : String) (e : Elem)
    (acc1 : List ProductImage × List String)
    (hw : exceptOkBool (pyIntDefault0 (e.get "data-large_image_width")) = true)
    (hh : exceptOkBool (pyIntDefault0 (e.get "data-large_image_height")) = true) :
    ∃ r, galleryLargePart cur e acc1 = Except.ok r := by
  obtain ⟨wa, hwa⟩ := (exceptOkBool_iff _).mp hw
  obtain ⟨ha, hha⟩ := (exceptOkBool_iff _).mp hh
  rw [← exceptOkBool_iff]
  unfold galleryLargePart
  cases hls : pyOrStr (e.get "data-large_image") (e.get "data-src") with
  | none => rfl
  | some ls =>
      dsimp only []
      by_cases hcond : (decide (ls ≠ "") && decide (ls ∉ acc1.2)) = true
      · rw [if_pos hcond]
        simp only [hwa, hha, bind_ok_reduce]
        rfl
      · rw [if_neg hcond]
        rfl

theorem galleryElemStep_ok (cur : String) (acc : List ProductImage × List String)
    (e : Elem) (h : galleryElemIntOk e = true) :
    ∃ r, galleryElemStep cur acc e = Except.ok r := by
  unfold galleryElemIntOk at h
  rw [Bool.and_eq_true, Bool.and_eq_true] at h
  obtain ⟨⟨hw, hh⟩, himg⟩ := h
  obtain ⟨a1, ha1⟩ := galleryImgPart_ok cur acc e himg
  obtain ⟨r, hr⟩ := galleryLargePart_ok cur e a1 hw hh
  refine ⟨r, ?_⟩
  unfold galleryElemStep
  rw [ha1]
  simp only [bind_ok_reduce]
  exact hr

theorem foldlM_galleryElemStep_ok (cur : String) :
    ∀ (l : List Elem) (acc : List ProductImage × List String),
      (∀ e ∈ l, galleryElemIntOk e = true) →
      ∃ r, l.foldlM (galleryElemStep cur) acc = Except.ok r := by
  intro l
  induction l with
  | nil => exact fun acc _ => ⟨acc, rfl⟩
  | cons e es ih =>
      intro acc h
      obtain ⟨a1, ha1⟩ := galleryElemStep_ok cur acc e (h e (List.mem_cons_self _ _))
      obtain ⟨r, hr⟩ := ih a1 (fun x hx => h x (List.mem_cons_of_mem _ hx))
      refine ⟨r, ?_⟩
      rw [List.foldlM_cons, ha1]
      simp only [bind_ok_reduce]
      exact hr

theorem galleryLoop_ok (doc : Elem) (cur : String) :
    ∀ (sels : List String) (acc : List ProductImage × List String),
      (∀ sel ∈ sels, (qLookup doc sel).all galleryElemIntOk = true) →
      ∃ r, galleryLoop doc cur sels acc = Except.ok r := by
  intro sels
  induction sels with
  | nil => exact fun acc _ => ⟨acc, rfl⟩
  | cons sel rest ih =>
      intro acc h
      have hall := List.all_eq_true.mp (h sel (List.mem_cons_self _ _))
      obtain ⟨a1, ha1⟩ := foldlM_galleryElemStep_ok cur (qLookup doc sel) acc
        (fun e he => hall e he)
      obtain ⟨r, hr⟩ := ih a1 (fun s hs => h s (List.mem_cons_of_mem _ hs))
      refine ⟨r, ?_⟩
      unfold galleryLoop
      rw [ha1]
      simp only [bind_ok_reduce]
      exact hr

theorem extractImages_ok (doc : Elem) (cur : String) (h : imageAttrsOk doc = true) :
    ∃ r, extractImages doc cur = Except.ok r := by
  unfold imageAttrsOk at h
  rw [Bool.and_eq_true] at h
  obtain ⟨hmain, hgal⟩ := h
  obtain ⟨m, hm⟩ := mainImageLoop_ok doc cur mainImageSelectors []
    (fun sel hs => List.all_eq_true.mp hmain sel hs)
  obtain ⟨g, hg⟩ := galleryLoop_ok doc cur galleryImageSelectors ([], m.2)
    (fun sel hs => List.all_eq_true.mp hgal sel hs)
  refine ⟨{ main := m.1, gallery := g.1 }, ?_⟩
  unfold extractImages
  rw [hm]
  simp only [bind_ok_reduce]
  rw [hg]
  rfl

/-- C4 (amended).  `ProductParser.parse` never raises on a page whose
image elements carry only absent or integer-valued
`width`/`height`/`data-large_image_width`/`data-large_image_height`
attributes — all other extractors degrade to null/empty — but a present
non-integer value in one of those four attributes makes `int()` raise
`ValueError`, which propagates out of `parse` (see the
counterexample). -/
theorem parse_product_total_for_wellformed_images (doc : Elem) (url : String)
    (h : imageAttrsOk doc = true) :
    ∃ p, parseProduct doc url = Except.ok p := by
  obtain ⟨r, hr⟩ := extractImages_ok doc url h
  rw [← exceptOkBool_iff]
  unfold parseProduct
  rw [hr]
  rfl

/-- C4 (counterexample).  On a product page whose gallery image has
`width="abc"`, `parse` raises `ValueError` instead of degrading — the
claim that it returns a record for every combination of malformed
attribute values on individual elements is false. -/
theorem parse_product_raises_on_malformed_width :
    parseProduct badWidthDoc "https://site.com/product/p/" =
      Except.error "invalid literal for int with base 10: abc" := by
  rfl

/-- Witness for C4: the minimal product page is well-formed and parses
to a record. -/
theorem parse_product_total_witness :
    imageAttrsOk plainProductDoc = true ∧
    ∃ p, parseProduct plainProductDoc "https://site.com/product/x/" = Except.ok p :=
  ⟨by decide,
   parse_product_total_for_wellformed_images plainProductDoc
     "https://site.com/product/x/" (by decide)⟩
